import Mathlib

/-!
Verification of the statement-excision and range-splice utilities of the
at-Cloud-sign-up-system cleanup scripts.

The pure computation of `remove_console_logs` (src/remove_console_logs.py,
lines 14-52) is embedded over `List Char` for file content and
`List (List Char)` for the line sequence.  The file-system side effects
(reading, writing, printing) are abstracted at the `BatchRewriter` boundary:
a file is an `Except` value carrying either its content or the error raised
while handling it, mirroring the `try`/`except` block of the script.
-/

set_option maxRecDepth 16000

namespace Cleanup

/-- Whitespace characters matched by the whitespace escape class of the
regex on src/remove_console_logs.py line 25 (Python `re`, Unicode mode). -/
def pyWhitespace (c : Char) : Bool :=
  ([' ', '\t', '\n', '\x0b', '\x0c', '\r', '\x1c', '\x1d', '\x1e', '\x1f',
    '\x85', '\xa0', ' ', ' ', ' ', ' ', ' ', ' ',
    ' ', ' ', ' ', ' ', ' ', ' ', ' ',
    ' ', ' ', ' ', '　'] : List Char).contains c

/-- Holds when the suffix begins with optional whitespace followed by an
opening parenthesis: the tail `\s*\(` of the regex on line 25. -/
def lparenAfterWs : List Char → Bool
  | [] => false
  | c :: rest => if c = '(' then true else if pyWhitespace c then lparenAfterWs rest else false

/-- Matches the part of the regex after `console.`: one of the method names
`log`, `debug`, `info`, then optional whitespace and an opening parenthesis. -/
def kwTail (s : List Char) : Bool :=
  (if s.take 3 = ['l', 'o', 'g'] then lparenAfterWs (s.drop 3) else false)
  || (if s.take 5 = ['d', 'e', 'b', 'u', 'g'] then lparenAfterWs (s.drop 5) else false)
  || (if s.take 4 = ['i', 'n', 'f', 'o'] then lparenAfterWs (s.drop 4) else false)

/-- Holds when the match pattern fires exactly at the head of `s`. -/
def consoleAt (s : List Char) : Bool :=
  if s.take 8 = ['c', 'o', 'n', 's', 'o', 'l', 'e', '.'] then kwTail (s.drop 8) else false

/-- The test on src/remove_console_logs.py line 25: `re.search` of
`\s*console\.(log|debug|info)\s*\(` over the line.  A search succeeds iff
the pattern matches at some position; the leading `\s*` is redundant for a
search, so this holds iff `console.` followed by a method name, optional
whitespace and `(` occurs at some position of the line. -/
def consoleMatch : List Char → Bool
  | [] => false
  | c :: rest => consoleAt (c :: rest) || consoleMatch rest

/-- Python `line.count(c)` for a single character `c`. -/
def countChar (c : Char) (s : List Char) : Nat :=
  s.count c

/-- The per-line parenthesis balance `line.count('(') - line.count(')')`
of src/remove_console_logs.py lines 27 and 34. -/
def parenDelta (s : List Char) : Int :=
  (countChar '(' s : Int) - (countChar ')' s : Int)

/-- The inner `while` loop of src/remove_console_logs.py lines 31-34, seen
from the lines after the matched one: while the running balance is positive
and another line exists, consume the next line and add its parenthesis
delta.  Returns the lines remaining after the last consumed line. -/
def skipCont (balance : Int) : List (List Char) → List (List Char)
  | [] => []
  | l :: rest => if balance > 0 then skipCont (balance + parenDelta l) rest else l :: rest

/-- The number of continuation lines the inner `while` loop consumes, i.e.
the distance `j - i` between the matched line and the last dropped line. -/
def contLen (balance : Int) : List (List Char) → Nat
  | [] => 0
  | l :: rest => if balance > 0 then contLen (balance + parenDelta l) rest + 1 else 0

/-- The running parenthesis balance after the matched line (contributing
`b`) and the first `k` continuation lines. -/
def cumBal (b : Int) (xs : List (List Char)) (k : Nat) : Int :=
  b + ((xs.take k).map parenDelta).sum

/-- The outer `while` loop of src/remove_console_logs.py lines 21-41 with an
explicit fuel argument bounding the number of iterations: each iteration
advances the cursor by at least one line, so `ls.length` iterations always
suffice (see `excise`).  When a line matches, the matched line and the
continuation lines consumed by the inner loop are dropped; otherwise the
line is kept. -/
def exciseAux : Nat → List (List Char) → List (List Char)
  | 0, _ => []
  | _ + 1, [] => []
  | fuel + 1, l :: rest =>
    if consoleMatch l then exciseAux fuel (skipCont (parenDelta l) rest)
    else l :: exciseAux fuel rest

/-- The line-level excision scan of src/remove_console_logs.py lines 21-41:
the surviving lines of the input line sequence. -/
def excise (ls : List (List Char)) : List (List Char) :=
  exciseAux ls.length ls

/-- Python `content.split('\n')` (src/remove_console_logs.py line 17). -/
def splitNl : List Char → List (List Char)
  | [] => [[]]
  | c :: rest =>
    if c = '\n' then [] :: splitNl rest
    else (c :: (splitNl rest).headI) :: (splitNl rest).tail

/-- Python `'\n'.join(lines)` (src/remove_console_logs.py line 43). -/
def joinNl : List (List Char) → List Char
  | [] => []
  | [l] => l
  | l :: l' :: ls => l ++ '\n' :: joinNl (l' :: ls)

/-- The pure computation of `remove_console_logs`
(src/remove_console_logs.py lines 14-52): split the content on newlines,
run the excision scan, join the survivors with newlines, and report whether
the result differs from the original content (the function's return value,
which also decides whether the file is rewritten). -/
def remove_console_logs (content : List Char) : List Char × Bool :=
  let newContent := joinNl (excise (splitNl content))
  (newContent, decide (newContent ≠ content))

/-- The four lines of the multi-line example of the specification together
with the following statement. -/
def exampleRest : List (List Char) :=
  ["  \"value:\", x,".data, "  y".data, ");".data, "nextStatement();".data]

/-- The five-line example block of the specification. -/
def exampleFive : List (List Char) :=
  "console.log(".data :: exampleRest

/-- The delegation replacement block of
src/backend/extract_guest_method.py lines 16-27 (braces written with hex
escapes). -/
def delegation : String :=
  "  /**\n   * Register a guest for an event role\n   * POST /api/events/:eventId/guest-signup\n   */\n  static async registerGuest(req: Request, res: Response): Promise<void> \x7b\n    const \x7b GuestRegistrationController \x7d = await import(\n      \"./guest/GuestRegistrationController\"\n    );\n    return GuestRegistrationController.registerGuest(req, res);\n  \x7d\n\n"

/-- Modelled from the spec: the RangeSplicer contract of specification
section 4.4, `splice(lines, startIndex, endIndexExclusive, replacementBlock)`.
The source (src/backend/extract_guest_method.py line 30) contains only the
fixed instance `lines[0:77] + [delegation] + lines[783:]`; Python slices
clamp out-of-range indices exactly as `List.take` and `List.drop` do. -/
def splice (lines : List String) (startIndex endIndexExclusive : Nat)
    (block : List String) : List String :=
  lines.take startIndex ++ block ++ lines.drop endIndexExclusive

/-- The concrete splice of src/backend/extract_guest_method.py line 30:
`new_lines = lines[0:77] + [delegation] + lines[783:]`. -/
def new_lines (lines : List String) : List String :=
  lines.take 77 ++ [delegation] ++ lines.drop 783

/-- The per-file behaviour of `remove_console_logs`
(src/remove_console_logs.py lines 6-56) with the file system abstracted:
the argument carries either the file content or the error raised at any
point of the `try` block (reading, transforming or writing).  Returns the
function's boolean result together with the messages it prints: the
`except` branch (lines 54-56) catches every exception, prints a message
naming the failing path and returns `False`; a successful cleaning prints
the message of line 49 and returns `True`. -/
def processFile (path : String) (file : Except String (List Char)) :
    Bool × List String :=
  match file with
  | Except.error e => (false, ["❌ Error processing " ++ path ++ ": " ++ e])
  | Except.ok content =>
    let r := remove_console_logs content
    (r.2, if r.2 then ["✅ Cleaned: " ++ path] else [])

/-- One iteration of the loop of `main` (src/remove_console_logs.py
lines 69-76): process the file and increment the counter when the per-file
call returned `True`, accumulating the printed messages. -/
def countStep (acc : Nat × List String) (pf : String × Except String (List Char)) :
    Nat × List String :=
  let r := processFile pf.1 pf.2
  (if r.1 then acc.1 + 1 else acc.1, acc.2 ++ r.2)

/-- The batch loop of `main` (src/remove_console_logs.py lines 67-76) over
an already-enumerated sequence of files: the final `files_cleaned` counter
and the messages printed along the way. -/
def main_loop (files : List (String × Except String (List Char))) :
    Nat × List String :=
  files.foldl countStep (0, [])

theorem skipCont_length_le (xs : List (List Char)) :
    ∀ b : Int, (skipCont b xs).length ≤ xs.length := by
  induction xs with
  | nil => intro b; simp [skipCont]
  | cons l rest ih =>
    intro b
    rw [skipCont]
    by_cases h : b > 0
    · rw [if_pos h]
      exact Nat.le_trans (ih _) (Nat.le_succ _)
    · rw [if_neg h]

theorem skipCont_sublist (xs : List (List Char)) :
    ∀ b : Int, (skipCont b xs).Sublist xs := by
  induction xs with
  | nil => intro b; simp [skipCont]
  | cons l rest ih =>
    intro b
    rw [skipCont]
    by_cases h : b > 0
    · rw [if_pos h]
      exact (ih _).cons l
    · rw [if_neg h]

theorem skipCont_eq_drop (xs : List (List Char)) :
    ∀ b : Int, skipCont b xs = xs.drop (contLen b xs) := by
  induction xs with
  | nil => intro b; simp [skipCont, contLen]
  | cons l rest ih =>
    intro b
    rw [skipCont, contLen]
    by_cases h : b > 0
    · rw [if_pos h, if_pos h, ih]
      rfl
    · rw [if_neg h, if_neg h]
      rfl

theorem skipCont_nonpos (xs : List (List Char)) (b : Int) (hb : b ≤ 0) :
    skipCont b xs = xs := by
  cases xs with
  | nil => rfl
  | cons l rest =>
    rw [skipCont, if_neg (by omega)]

theorem contLen_le_length (xs : List (List Char)) :
    ∀ b : Int, contLen b xs ≤ xs.length := by
  induction xs with
  | nil => intro b; simp [contLen]
  | cons l rest ih =>
    intro b
    rw [contLen]
    by_cases h : b > 0
    · rw [if_pos h]
      simpa using ih _
    · rw [if_neg h]
      simp

theorem cumBal_zero (b : Int) (xs : List (List Char)) : cumBal b xs 0 = b := by
  simp [cumBal]

theorem cumBal_succ_cons (b : Int) (l : List Char) (rest : List (List Char)) (k : Nat) :
    cumBal b (l :: rest) (k + 1) = cumBal (b + parenDelta l) rest k := by
  simp [cumBal, List.take_succ_cons]
  omega

theorem cumBal_pos_of_lt_contLen (xs : List (List Char)) :
    ∀ (b : Int) (k : Nat), k < contLen b xs → 0 < cumBal b xs k := by
  induction xs with
  | nil => intro b k hk; simp [contLen] at hk
  | cons l rest ih =>
    intro b k hk
    rw [contLen] at hk
    by_cases h : b > 0
    · rw [if_pos h] at hk
      cases k with
      | zero => simpa [cumBal_zero] using h
      | succ k =>
        rw [cumBal_succ_cons]
        exact ih _ k (by omega)
    · rw [if_neg h] at hk
      omega

theorem cumBal_contLen_nonpos (xs : List (List Char)) :
    ∀ b : Int, contLen b xs < xs.length → cumBal b xs (contLen b xs) ≤ 0 := by
  induction xs with
  | nil => intro b h; simp [contLen] at h
  | cons l rest ih =>
    intro b h
    rw [contLen] at h ⊢
    by_cases hb : b > 0
    · rw [if_pos hb] at h ⊢
      rw [cumBal_succ_cons]
      exact ih _ (by simpa using h)
    · rw [if_neg hb]
      rw [cumBal_zero]
      omega

theorem contLen_eq_length_of_pos (xs : List (List Char)) (b : Int)
    (hpos : ∀ k : Nat, k ≤ xs.length → 0 < cumBal b xs k) :
    contLen b xs = xs.length := by
  rcases Nat.lt_or_ge (contLen b xs) xs.length with h | h
  · have h1 := cumBal_contLen_nonpos xs b h
    have h2 := hpos (contLen b xs) (Nat.le_of_lt h)
    omega
  · exact Nat.le_antisymm (contLen_le_length xs b) h

theorem exciseAux_fuel (n : Nat) :
    ∀ (ls : List (List Char)) (m : Nat),
      ls.length ≤ n → ls.length ≤ m → exciseAux n ls = exciseAux m ls := by
  induction n with
  | zero =>
    intro ls m hn _
    have : ls = [] := List.length_eq_zero.mp (Nat.le_zero.mp hn)
    subst this
    cases m <;> rfl
  | succ n ih =>
    intro ls m hn hm
    cases ls with
    | nil => cases m <;> rfl
    | cons l rest =>
      cases m with
      | zero => simp at hm
      | succ m =>
        rw [exciseAux, exciseAux]
        have hrn : rest.length ≤ n := Nat.le_of_succ_le_succ hn
        have hrm : rest.length ≤ m := Nat.le_of_succ_le_succ hm
        by_cases h : consoleMatch l
        · rw [if_pos h, if_pos h]
          exact ih _ _ (Nat.le_trans (skipCont_length_le _ _) hrn)
            (Nat.le_trans (skipCont_length_le _ _) hrm)
        · rw [if_neg h, if_neg h, ih _ _ hrn hrm]

theorem excise_nil : excise [] = [] := rfl

theorem excise_cons (l : List Char) (rest : List (List Char)) :
    excise (l :: rest) =
      if consoleMatch l then excise (skipCont (parenDelta l) rest)
      else l :: excise rest := by
  show exciseAux (rest.length + 1) (l :: rest) = _
  rw [exciseAux]
  by_cases h : consoleMatch l
  · rw [if_pos h, if_pos h]
    exact exciseAux_fuel _ _ _ (skipCont_length_le _ _) le_rfl
  · rw [if_neg h, if_neg h]
    rfl

theorem excise_sublist (ls : List (List Char)) : (excise ls).Sublist ls := by
  have main : ∀ (n : Nat) (ls : List (List Char)), ls.length ≤ n →
      (excise ls).Sublist ls := by
    intro n
    induction n with
    | zero =>
      intro ls h
      have : ls = [] := List.length_eq_zero.mp (Nat.le_zero.mp h)
      subst this
      simp [excise_nil]
    | succ n ih =>
      intro ls h
      cases ls with
      | nil => simp [excise_nil]
      | cons l rest =>
        rw [excise_cons]
        have hr : rest.length ≤ n := Nat.le_of_succ_le_succ h
        by_cases hm : consoleMatch l
        · rw [if_pos hm]
          have h1 : (skipCont (parenDelta l) rest).length ≤ n :=
            Nat.le_trans (skipCont_length_le _ _) hr
          exact ((ih _ h1).trans (skipCont_sublist _ _)).cons l
        · rw [if_neg hm]
          exact (ih rest hr).cons₂ l
  exact main ls.length ls le_rfl

theorem mem_excise_no_match (ls : List (List Char)) :
    ∀ l ∈ excise ls, consoleMatch l = false := by
  have main : ∀ (n : Nat) (ls : List (List Char)), ls.length ≤ n →
      ∀ l ∈ excise ls, consoleMatch l = false := by
    intro n
    induction n with
    | zero =>
      intro ls h
      have : ls = [] := List.length_eq_zero.mp (Nat.le_zero.mp h)
      subst this
      simp [excise_nil]
    | succ n ih =>
      intro ls h
      cases ls with
      | nil => simp [excise_nil]
      | cons l rest =>
        rw [excise_cons]
        have hr : rest.length ≤ n := Nat.le_of_succ_le_succ h
        by_cases hm : consoleMatch l
        · rw [if_pos hm]
          exact ih _ (Nat.le_trans (skipCont_length_le _ _) hr)
        · rw [if_neg hm]
          intro x hx
          rcases List.mem_cons.mp hx with rfl | hx
          · exact Bool.eq_false_iff.mpr hm
          · exact ih rest hr x hx
  exact main ls.length ls le_rfl

theorem excise_no_match_id (ls : List (List Char))
    (h : ∀ l ∈ ls, consoleMatch l = false) : excise ls = ls := by
  induction ls with
  | nil => exact excise_nil
  | cons l rest ih =>
    rw [excise_cons, if_neg (by simp [h l (List.mem_cons_self l rest)]),
      ih (fun x hx => h x (List.mem_cons_of_mem l hx))]

theorem excise_idem (ls : List (List Char)) : excise (excise ls) = excise ls :=
  excise_no_match_id _ (mem_excise_no_match ls)

theorem splitNl_ne_nil (s : List Char) : splitNl s ≠ [] := by
  cases s with
  | nil => simp [splitNl]
  | cons c rest =>
    rw [splitNl]
    by_cases h : c = '\n'
    · rw [if_pos h]; simp
    · rw [if_neg h]; simp

theorem mem_splitNl_no_newline (s : List Char) :
    ∀ l ∈ splitNl s, '\n' ∉ l := by
  induction s with
  | nil =>
    intro l hl
    simp [splitNl] at hl
    simp [hl]
  | cons c rest ih =>
    intro l hl
    rw [splitNl] at hl
    by_cases h : c = '\n'
    · rw [if_pos h] at hl
      rcases List.mem_cons.mp hl with rfl | hl
      · simp
      · exact ih l hl
    · rw [if_neg h] at hl
      cases e : splitNl rest with
      | nil => exact absurd e (splitNl_ne_nil rest)
      | cons r0 rt =>
        rw [e] at hl
        rcases List.mem_cons.mp hl with rfl | hl
        · intro hmem
          rcases List.mem_cons.mp hmem with h0 | hmem
          · exact h h0.symm
          · exact ih r0 (e ▸ List.mem_cons_self r0 rt) hmem
        · exact ih l (e ▸ List.mem_cons_of_mem r0 hl)

theorem joinNl_cons_head_tail (c : Char) (r : List (List Char)) (hr : r ≠ []) :
    joinNl ((c :: r.headI) :: r.tail) = c :: joinNl r := by
  cases r with
  | nil => exact absurd rfl hr
  | cons r0 rt =>
    cases rt with
    | nil => rfl
    | cons r1 rt' => simp [joinNl]

theorem joinNl_splitNl (s : List Char) : joinNl (splitNl s) = s := by
  induction s with
  | nil => rfl
  | cons c rest ih =>
    rw [splitNl]
    by_cases h : c = '\n'
    · rw [if_pos h]
      cases e : splitNl rest with
      | nil => exact absurd e (splitNl_ne_nil rest)
      | cons r0 rt =>
        have h2 : joinNl ([] :: r0 :: rt) = '\n' :: joinNl (r0 :: rt) := by
          simp [joinNl]
        have h3 : joinNl (r0 :: rt) = rest := by rw [← e, ih]
        rw [h2, h3, h]
    · rw [if_neg h, joinNl_cons_head_tail c _ (splitNl_ne_nil rest), ih]

theorem splitNl_no_nl (l : List Char) (h : '\n' ∉ l) : splitNl l = [l] := by
  induction l with
  | nil => rfl
  | cons c rest ih =>
    rw [splitNl, if_neg (by rintro rfl; exact h (List.mem_cons_self _ _)),
      ih (fun hm => h (List.mem_cons_of_mem c hm))]
    rfl

theorem splitNl_append_nl (l : List Char) (s : List Char) (h : '\n' ∉ l) :
    splitNl (l ++ '\n' :: s) = l :: splitNl s := by
  induction l with
  | nil => simp [splitNl]
  | cons c rest ih =>
    have hc : c ≠ '\n' := by rintro rfl; exact h (List.mem_cons_self _ _)
    have hrest : '\n' ∉ rest := fun hm => h (List.mem_cons_of_mem c hm)
    rw [List.cons_append, splitNl, if_neg hc, ih hrest]
    rfl

theorem splitNl_joinNl (ls : List (List Char)) (hne : ls ≠ [])
    (hnl : ∀ l ∈ ls, '\n' ∉ l) : splitNl (joinNl ls) = ls := by
  induction ls with
  | nil => exact absurd rfl hne
  | cons l rest ih =>
    cases rest with
    | nil =>
      rw [joinNl, splitNl_no_nl l (hnl l (List.mem_cons_self l []))]
    | cons l' rest' =>
      rw [joinNl, splitNl_append_nl l _ (hnl l (List.mem_cons_self l _)),
        ih (by simp) (fun x hx => hnl x (List.mem_cons_of_mem l hx))]

theorem foldl_countStep (fs : List (String × Except String (List Char))) :
    ∀ (n : Nat) (msgs : List String),
      fs.foldl countStep (n, msgs) = (n + (main_loop fs).1, msgs ++ (main_loop fs).2) := by
  induction fs with
  | nil => intro n msgs; simp [main_loop]
  | cons f fs ih =>
    intro n msgs
    have h0 : main_loop (f :: fs) = ((countStep (0, []) f).1 + (main_loop fs).1,
        (countStep (0, []) f).2 ++ (main_loop fs).2) := by
      show (f :: fs).foldl countStep (0, []) = _
      rw [List.foldl_cons, ih]
    rw [List.foldl_cons, ih, h0]
    unfold countStep
    by_cases h : (processFile f.1 f.2).1
    · simp [h, Nat.add_assoc, List.append_assoc]
    · simp [h, Nat.add_assoc, List.append_assoc]

theorem main_loop_append (xs ys : List (String × Except String (List Char))) :
    main_loop (xs ++ ys) = ((main_loop xs).1 + (main_loop ys).1,
      (main_loop xs).2 ++ (main_loop ys).2) := by
  show (xs ++ ys).foldl countStep (0, []) = _
  rw [List.foldl_append]
  have h0 : xs.foldl countStep (0, []) = main_loop xs := rfl
  rw [h0]
  cases h : main_loop xs with
  | mk n msgs => rw [foldl_countStep]

theorem main_loop_count (fs : List (String × Except String (List Char))) :
    (main_loop fs).1 = (fs.filter (fun pf => (processFile pf.1 pf.2).1)).length := by
  induction fs with
  | nil => simp [main_loop]
  | cons f fs ih =>
    have h0 : main_loop (f :: fs) = ((countStep (0, []) f).1 + (main_loop fs).1,
        (countStep (0, []) f).2 ++ (main_loop fs).2) := by
      show (f :: fs).foldl countStep (0, []) = _
      rw [List.foldl_cons, foldl_countStep]
    rw [h0, List.filter_cons]
    unfold countStep
    by_cases h : (processFile f.1 f.2).1
    · simp [h, ih, Nat.add_comm]
    · simp [h, ih]

/-- Claim C1: when the scan matches a line whose own parenthesis balance is
positive, the lines dropped beyond it are exactly
`contLen (parenDelta l) rest` further lines and scanning resumes after
them; that count is maximal with a positive running balance before it
(cursor `j` advances while the balance stays positive), is bounded by the
number of remaining lines (`j` stops at the last line), and when it stops
before the last line the running balance there is at most zero.  On the
five-line example of the specification, excision removes exactly the first
four lines and preserves the `nextStatement();` line unchanged. -/
theorem C1_multiline_excision (l : List Char) (rest : List (List Char))
    (hm : consoleMatch l = true) (hb : 0 < parenDelta l) :
    excise (l :: rest) = excise (rest.drop (contLen (parenDelta l) rest))
    ∧ contLen (parenDelta l) rest ≤ rest.length
    ∧ (∀ k : Nat, k < contLen (parenDelta l) rest → 0 < cumBal (parenDelta l) rest k)
    ∧ (contLen (parenDelta l) rest < rest.length →
        cumBal (parenDelta l) rest (contLen (parenDelta l) rest) ≤ 0)
    ∧ excise exampleFive = ["nextStatement();".data] := by
  refine ⟨?_, contLen_le_length rest _, cumBal_pos_of_lt_contLen rest _,
    cumBal_contLen_nonpos rest _, by decide⟩
  rw [excise_cons, if_pos hm, skipCont_eq_drop]

/-- Claim C1 witness: the general statement instantiated on the five-line
example of the specification. -/
theorem C1_witness :
    excise ("console.log(".data :: exampleRest)
      = excise (exampleRest.drop (contLen (parenDelta ("console.log(".data)) exampleRest))
    ∧ contLen (parenDelta ("console.log(".data)) exampleRest ≤ exampleRest.length
    ∧ (∀ k : Nat, k < contLen (parenDelta ("console.log(".data)) exampleRest →
        0 < cumBal (parenDelta ("console.log(".data)) exampleRest k)
    ∧ (contLen (parenDelta ("console.log(".data)) exampleRest < exampleRest.length →
        cumBal (parenDelta ("console.log(".data)) exampleRest
          (contLen (parenDelta ("console.log(".data)) exampleRest) ≤ 0)
    ∧ excise exampleFive = ["nextStatement();".data] :=
  C1_multiline_excision ("console.log(".data) exampleRest (by decide) (by decide)

/-- Claim C2: the excision computation is idempotent: applying
`remove_console_logs` to the new content produced by a first application
reports `changed = false`. -/
theorem C2_idempotent (C : List Char) :
    (remove_console_logs (remove_console_logs C).1).2 = false := by
  show (remove_console_logs (joinNl (excise (splitNl C)))).2 = false
  rcases eq_or_ne (excise (splitNl C)) [] with h | h
  · rw [h]
    decide
  · have hnl : ∀ l ∈ excise (splitNl C), '\n' ∉ l := fun l hl =>
      mem_splitNl_no_newline C l ((excise_sublist (splitNl C)).subset hl)
    show decide (joinNl (excise (splitNl (joinNl (excise (splitNl C)))))
        ≠ joinNl (excise (splitNl C))) = false
    rw [splitNl_joinNl _ h hnl, excise_idem]
    simp

/-- Claim C3: when the running balance stays strictly positive through
every remaining line, the scan consumes and drops everything from the
matched line to the end of the file, terminating with an empty remainder
and no error (the function is total). -/
theorem C3_unbalanced_to_eof (l : List Char) (rest : List (List Char))
    (hm : consoleMatch l = true)
    (hpos : ∀ k : Nat, k ≤ rest.length → 0 < cumBal (parenDelta l) rest k) :
    excise (l :: rest) = [] := by
  rw [excise_cons, if_pos hm, skipCont_eq_drop,
    contLen_eq_length_of_pos rest _ hpos, List.drop_length]
  rfl

/-- Claim C3 witness: a `console.log(` line followed by a lone `(` line
never closes, and everything is dropped. -/
theorem C3_witness : excise ["console.log(".data, "(".data] = [] :=
  C3_unbalanced_to_eof ("console.log(".data) ["(".data] (by decide) (by decide)

/-- Claim C4 counterexample: on the input lines `console.log(`, `))`, `x`
the scan excises lines 0-1 (the survivor `x` shows the range does not
extend to the end of the file), yet the parenthesis delta summed over the
excised range is `cumBal 1 = -1`, not zero: the inner loop stops as soon as
the balance is at most zero, which can overshoot below zero. -/
theorem C4_counterexample :
    consoleMatch ("console.log(".data) = true
    ∧ excise ["console.log(".data, "))".data, "x".data] = ["x".data]
    ∧ ¬(contLen (parenDelta ("console.log(".data)) ["))".data, "x".data]
          = (["))".data, "x".data] : List (List Char)).length
        ∨ cumBal (parenDelta ("console.log(".data)) ["))".data, "x".data]
            (contLen (parenDelta ("console.log(".data)) ["))".data, "x".data]) = 0) := by
  decide

/-- Claim C4 amended: for every range excised by the scan, the parenthesis
delta summed over the range (the running balance where the scan stopped) is
at most zero — not necessarily exactly zero — unless the range extends to
the end of the file. -/
theorem C4_range_balance (l : List Char) (rest : List (List Char))
    (hm : consoleMatch l = true) :
    excise (l :: rest) = excise (rest.drop (contLen (parenDelta l) rest))
    ∧ (contLen (parenDelta l) rest = rest.length
       ∨ cumBal (parenDelta l) rest (contLen (parenDelta l) rest) ≤ 0) := by
  refine ⟨by rw [excise_cons, if_pos hm, skipCont_eq_drop], ?_⟩
  rcases Nat.lt_or_ge (contLen (parenDelta l) rest) rest.length with h | h
  · exact Or.inr (cumBal_contLen_nonpos rest _ h)
  · exact Or.inl (Nat.le_antisymm (contLen_le_length rest _) h)

/-- Claim C4 amended witness: the amended statement instantiated on the
counterexample input. -/
theorem C4_witness :
    excise ("console.log(".data :: ["))".data, "x".data])
      = excise ((["))".data, "x".data] : List (List Char)).drop
          (contLen (parenDelta ("console.log(".data)) ["))".data, "x".data]))
    ∧ (contLen (parenDelta ("console.log(".data)) ["))".data, "x".data]
          = (["))".data, "x".data] : List (List Char)).length
       ∨ cumBal (parenDelta ("console.log(".data)) ["))".data, "x".data]
            (contLen (parenDelta ("console.log(".data)) ["))".data, "x".data]) ≤ 0) :=
  C4_range_balance ("console.log(".data) ["))".data, "x".data] (by decide)

/-- Claim C5 counterexample: in the specification's own five-line example
the line `  y` does not match the pattern, yet it is absent from the
excision output, because it lies inside the continuation range of the
matched `console.log(` line. -/
theorem C5_counterexample :
    consoleMatch ("  y".data) = false
    ∧ ("  y".data) ∈ exampleFive
    ∧ excise exampleFive = ["nextStatement();".data]
    ∧ ("  y".data) ∉ excise exampleFive := by
  decide

/-- Claim C5 amended: every line of the excision output is a non-matching
input line, verbatim and in the input's relative order (the output is a
subsequence of the non-matching input lines); a non-matching line may
nevertheless be dropped when it lies inside the continuation range of a
matched statement. -/
theorem C5_preservation (ls : List (List Char)) :
    (excise ls).Sublist (ls.filter (fun l => !consoleMatch l)) := by
  have main : ∀ (n : Nat) (ls : List (List Char)), ls.length ≤ n →
      (excise ls).Sublist (ls.filter (fun l => !consoleMatch l)) := by
    intro n
    induction n with
    | zero =>
      intro ls h
      have : ls = [] := List.length_eq_zero.mp (Nat.le_zero.mp h)
      subst this
      simp [excise_nil]
    | succ n ih =>
      intro ls h
      cases ls with
      | nil => simp [excise_nil]
      | cons l rest =>
        rw [excise_cons, List.filter_cons]
        have hr : rest.length ≤ n := Nat.le_of_succ_le_succ h
        by_cases hm : consoleMatch l
        · rw [if_pos hm]
          have h1 : (skipCont (parenDelta l) rest).length ≤ n :=
            Nat.le_trans (skipCont_length_le _ _) hr
          have h2 : (excise (skipCont (parenDelta l) rest)).Sublist
              (rest.filter (fun l => !consoleMatch l)) :=
            (ih _ h1).trans ((skipCont_sublist rest _).filter _)
          simpa [hm] using h2
        · rw [if_neg hm]
          simpa [hm] using (ih rest hr).cons₂ l
  exact main ls.length ls le_rfl

/-- Claim C6: when the scan matches a line whose own parenthesis balance is
at most zero, exactly that line is dropped and scanning continues with the
next line; a non-matching line immediately before or immediately after it
is preserved unchanged. -/
theorem C6_single_line (p l f : List Char) (rest : List (List Char))
    (hm : consoleMatch l = true) (hb : parenDelta l ≤ 0) :
    excise (l :: rest) = excise rest
    ∧ (consoleMatch p = false → excise (p :: l :: rest) = p :: excise rest)
    ∧ (consoleMatch f = false → excise (l :: f :: rest) = f :: excise rest) := by
  have h1 : excise (l :: rest) = excise rest := by
    rw [excise_cons, if_pos hm, skipCont_nonpos rest _ hb]
  refine ⟨h1, ?_, ?_⟩
  · intro hp
    rw [excise_cons, if_neg (by simp [hp]), h1]
  · intro hf
    have h2 : excise (l :: f :: rest) = excise (f :: rest) := by
      rw [excise_cons, if_pos hm, skipCont_nonpos _ _ hb]
    rw [h2, excise_cons, if_neg (by simp [hf])]

/-- Claim C6 witness: a balanced single-line `console.log(1);` between two
plain statements is removed alone and both neighbours survive. -/
theorem C6_witness :
    excise ["console.log(1);".data] = excise []
    ∧ (consoleMatch ("a;".data) = false →
        excise ["a;".data, "console.log(1);".data] = "a;".data :: excise [])
    ∧ (consoleMatch ("b;".data) = false →
        excise ["console.log(1);".data, "b;".data] = "b;".data :: excise []) :=
  C6_single_line ("a;".data) ("console.log(1);".data) ("b;".data) []
    (by decide) (by decide)

/-- Claim C7: the `changed` result is true exactly when the newline-join of
the surviving lines differs from the original content string, and content
whose lines contain no instance of the pattern yields `changed = false`
with output identical to the input. -/
theorem C7_changed_iff (C : List Char) :
    ((remove_console_logs C).2 = true ↔ joinNl (excise (splitNl C)) ≠ C)
    ∧ ((∀ l ∈ splitNl C, consoleMatch l = false) →
        (remove_console_logs C).2 = false ∧ (remove_console_logs C).1 = C) := by
  constructor
  · show decide (joinNl (excise (splitNl C)) ≠ C) = true ↔ _
    exact decide_eq_true_iff
  · intro h
    have h1 : excise (splitNl C) = splitNl C := excise_no_match_id _ h
    constructor
    · show decide (joinNl (excise (splitNl C)) ≠ C) = false
      rw [h1, joinNl_splitNl]
      simp
    · show joinNl (excise (splitNl C)) = C
      rw [h1, joinNl_splitNl]

/-- Claim C7 witness: the second part instantiated on a clean two-line
content. -/
theorem C7_witness :
    (remove_console_logs ("hello();\nworld();".data)).2 = false
    ∧ (remove_console_logs ("hello();\nworld();".data)).1 = "hello();\nworld();".data :=
  (C7_changed_iff ("hello();\nworld();".data)).2 (by decide)

/-- Claim C8: `splice` returns `lines[0:start] ++ block ++ lines[endExcl:]`;
`new_lines` of the extraction script is the instance at `(77, 783)` with the
delegation block; and on a 20-line input, `splice lines 5 10 block` has
`20 - 5 + block.length` lines whose first 5 lines and last 10 lines are the
corresponding input lines unchanged. -/
theorem C8_splice_exact (lines block : List String) (h20 : lines.length = 20) :
    (∀ (ls : List String) (s e : Nat) (b : List String),
        splice ls s e b = ls.take s ++ b ++ ls.drop e)
    ∧ (∀ ls : List String, new_lines ls = splice ls 77 783 [delegation])
    ∧ (splice lines 5 10 block).length = 20 - 5 + block.length
    ∧ (splice lines 5 10 block).take 5 = lines.take 5
    ∧ (splice lines 5 10 block).drop (5 + block.length) = lines.drop 10 := by
  have htake : (lines.take 5).length = 5 := by
    rw [List.length_take, h20]
    omega
  refine ⟨fun ls s e b => rfl, fun ls => rfl, ?_, ?_, ?_⟩
  · rw [splice, List.length_append, List.length_append, List.length_take,
      List.length_drop, h20]
    omega
  · simp only [splice, List.append_assoc]
    exact List.take_left' htake
  · have hassoc : splice lines 5 10 block
        = (lines.take 5 ++ block) ++ lines.drop 10 := by
      rw [splice, List.append_assoc]
    rw [hassoc]
    exact List.drop_left' (by rw [List.length_append, htake])

/-- Claim C8 witness: the splice statement instantiated on a concrete
20-line input and a 3-line block. -/
theorem C8_witness :
    (∀ (ls : List String) (s e : Nat) (b : List String),
        splice ls s e b = ls.take s ++ b ++ ls.drop e)
    ∧ (∀ ls : List String, new_lines ls = splice ls 77 783 [delegation])
    ∧ (splice (List.replicate 20 "line") 5 10 ["a", "b", "c"]).length
        = 20 - 5 + (["a", "b", "c"] : List String).length
    ∧ (splice (List.replicate 20 "line") 5 10 ["a", "b", "c"]).take 5
        = (List.replicate 20 "line").take 5
    ∧ (splice (List.replicate 20 "line") 5 10 ["a", "b", "c"]).drop
          (5 + (["a", "b", "c"] : List String).length)
        = (List.replicate 20 "line").drop 10 :=
  C8_splice_exact (List.replicate 20 "line") ["a", "b", "c"] (by simp)

/-- Claim C9: an error raised while handling an individual file is caught
and turned into a `False` (unchanged) result plus a logged message naming
the failing path; it removes nothing else from the run, so the files before
and after it are still processed and their messages and contributions to
the counter are unchanged; and the final counter equals the number of files
whose per-file call returned `True`. -/
theorem C9_failure_isolation (pre post : List (String × Except String (List Char)))
    (p e : String) :
    (processFile p (Except.error e)).1 = false
    ∧ (processFile p (Except.error e)).2 = ["❌ Error processing " ++ p ++ ": " ++ e]
    ∧ (main_loop (pre ++ (p, Except.error e) :: post)).1 = (main_loop (pre ++ post)).1
    ∧ (main_loop (pre ++ (p, Except.error e) :: post)).2
        = (main_loop pre).2 ++ ["❌ Error processing " ++ p ++ ": " ++ e]
          ++ (main_loop post).2
    ∧ (∀ fs : List (String × Except String (List Char)),
        (main_loop fs).1 = (fs.filter (fun pf => (processFile pf.1 pf.2).1)).length) := by
  have herr : main_loop [(p, Except.error e)]
      = (0, ["❌ Error processing " ++ p ++ ": " ++ e]) := rfl
  refine ⟨rfl, rfl, ?_, ?_, main_loop_count⟩
  · have h1 : pre ++ (p, Except.error e) :: post
        = pre ++ ([(p, Except.error e)] ++ post) := by simp
    rw [h1, main_loop_append, main_loop_append, main_loop_append, herr]
    simp
  · have h1 : pre ++ (p, Except.error e) :: post
        = pre ++ ([(p, Except.error e)] ++ post) := by simp
    rw [h1, main_loop_append, main_loop_append, herr]
    simp

/-- Claim C10: the excision output's line sequence is a subsequence of the
input's line sequence — whole lines are only deleted, never edited or
inserted — so the output has at most as many lines as the input. -/
theorem C10_sublist (C : List Char) :
    (excise (splitNl C)).Sublist (splitNl C)
    ∧ (excise (splitNl C)).length ≤ (splitNl C).length :=
  ⟨excise_sublist (splitNl C), (excise_sublist (splitNl C)).length_le⟩

end Cleanup
